import Mathlib

/-!
Shallow embedding of the video mosaic batch processor in src/main.py.

The per-frame transform (VideoProcessor._apply_mosaic), the per-job control
flow (_prepare_output, _process_video_stream, _handle_audio, _cleanup_failed,
_process_single), the batch loop (process_all), the startup validation
(ConfigManager._validate_blur_kernel) and the writer bitrate computation
(_create_video_writer) are translated directly from the python source.

External collaborators are modelled as follows.  The OpenCV pixel primitives
(cv2.GaussianBlur and cv2.resize) compute pixel values outside this
repository; a CV structure keeps their pixel arithmetic abstract and records
only the documented size contract of each call, while the wrapper functions
cvResizeLinear and cvResizeNearest model the OpenCV assertion that a resize
with an empty source or an empty requested size raises an error.  The
decoder handle, the frames it yields and the exit status and on-disk effect
of the two ffmpeg subprocesses are inputs decided outside the python code
and are collected in a JobEnv record.  The filesystem slots one job touches
(its output path, the silent video artifact and the extracted audio
artifact in the temp workspace) form an FS record threaded through the job.
-/

namespace VideoMosaic

/-- A decoded video frame: `h` rows, `w` columns, and `px i j` the packed
pixel value at row `i`, column `j` (values outside that range are junk). -/
structure Img where
  h : Nat
  w : Nat
  px : Nat → Nat → Nat

/-- Python slice index normalisation for one axis of length `n`: a negative
index counts from the end of the axis, and the result is clamped to the
interval from 0 to `n`. -/
def normIdx (n : Nat) (i : Int) : Nat :=
  if i < 0 then ((n : Int) + i).toNat else min i.toNat n

/-- The numpy slice `frame[y0:y1, x0:x1]`, materialised as an image value.
In numpy the slice is a view into the parent array; the view semantics is
reproduced at the use site by re-slicing the updated parent array. -/
def sliceImg (f : Img) (y0 y1 x0 x1 : Int) : Img :=
  Img.mk (normIdx f.h y1 - normIdx f.h y0) (normIdx f.w x1 - normIdx f.w x0)
    (fun i j => f.px (normIdx f.h y0 + i) (normIdx f.w x0 + j))

/-- The numpy slice assignment `frame[y0:y1, x0:x1] = g`.  Every assignment
performed by the processor writes data whose shape equals the slice shape,
so no broadcasting is modelled. -/
def setSliceImg (f : Img) (y0 y1 x0 x1 : Int) (g : Img) : Img :=
  Img.mk f.h f.w
    (fun i j =>
      if normIdx f.h y0 ≤ i ∧ i < normIdx f.h y1 ∧
          normIdx f.w x0 ≤ j ∧ j < normIdx f.w x1
      then g.px (i - normIdx f.h y0) (j - normIdx f.w x0)
      else f.px i j)

/-- The OpenCV pixel primitives called by the processor.  Their pixel
arithmetic lives outside this repository, so it is kept abstract; the
propositional fields record the documented size contract of each call, and
the last field records that a resize reads only the pixels that lie inside
its source image. -/
structure CV where
  gaussianBlur : Int → Int → Img → Img
  resizeLinear : Img → Nat → Nat → Img
  resizeNearest : Img → Nat → Nat → Img
  gauss_h : ∀ k s f, (gaussianBlur k s f).h = f.h
  gauss_w : ∀ k s f, (gaussianBlur k s f).w = f.w
  linear_h : ∀ f dw dh, (resizeLinear f dw dh).h = dh
  linear_w : ∀ f dw dh, (resizeLinear f dw dh).w = dw
  nearest_h : ∀ f dw dh, (resizeNearest f dw dh).h = dh
  nearest_w : ∀ f dw dh, (resizeNearest f dw dh).w = dw
  linear_congr : ∀ f g dw dh, f.h = g.h → f.w = g.w →
    (∀ i j, i < f.h → j < f.w → f.px i j = g.px i j) →
    resizeLinear f dw dh = resizeLinear g dw dh

/-- A concrete backend used to evaluate the model on test inputs: blur is
the identity on pixels, and both resizes copy the source pixel grid where it
is defined and pad with zero elsewhere. -/
def idCV : CV where
  gaussianBlur := fun _ _ f => f
  resizeLinear := fun f dw dh =>
    Img.mk dh dw (fun i j => if i < f.h ∧ j < f.w then f.px i j else 0)
  resizeNearest := fun f dw dh =>
    Img.mk dh dw (fun i j => if i < f.h ∧ j < f.w then f.px i j else 0)
  gauss_h := fun _ _ _ => rfl
  gauss_w := fun _ _ _ => rfl
  linear_h := fun _ _ _ => rfl
  linear_w := fun _ _ _ => rfl
  nearest_h := fun _ _ _ => rfl
  nearest_w := fun _ _ _ => rfl
  linear_congr := by
    intro f g dw dh hhh hww hpx
    refine congrArg (Img.mk dh dw) ?_
    funext i j
    rw [← hhh, ← hww]
    by_cases hc : i < f.h ∧ j < f.w
    · simp only [hc, if_pos, and_self, if_true]
      exact hpx i j hc.1 hc.2
    · simp [hc]

/-- The call cv2.resize with the INTER_LINEAR interpolation and an explicit
target size: OpenCV raises when the source image is empty or the requested
target size is empty, and otherwise produces an image of exactly the
requested size. -/
def cvResizeLinear (cv : CV) (src : Img) (dw dh : Int) : Except String Img :=
  if src.h = 0 ∨ src.w = 0 then Except.error "resize: empty source"
  else if dw ≤ 0 ∨ dh ≤ 0 then Except.error "resize: empty target"
  else Except.ok (cv.resizeLinear src dw.toNat dh.toNat)

/-- The call cv2.resize with the INTER_NEAREST interpolation, under the same
OpenCV contract as cvResizeLinear. -/
def cvResizeNearest (cv : CV) (src : Img) (dw dh : Int) : Except String Img :=
  if src.h = 0 ∨ src.w = 0 then Except.error "resize: empty source"
  else if dw ≤ 0 ∨ dh ≤ 0 then Except.error "resize: empty target"
  else Except.ok (cv.resizeNearest src dw.toNat dh.toNat)

/-- The options snapshot that the processing pipeline consumes, produced by
ConfigManager.validate in src/main.py. -/
structure Cfg where
  x : Int
  y : Int
  width : Int
  height : Int
  blurKernel : Int
  blurSigma : Int
  overwrite : Bool
  removeAudio : Bool

/-- ConfigManager._validate_blur_kernel (src/main.py lines 175-180): raises
ValueError unless the configured kernel is a positive odd integer. -/
def validateBlurKernel (kernel : Int) : Except String Int :=
  if kernel ≤ 0 ∨ kernel % 2 = 0 then
    Except.error "blur kernel must be a positive odd integer"
  else Except.ok kernel

/-- Python str.lower, applied to extension strings such as ".MP4"; mapped
over the character list so that it evaluates inside the kernel. -/
def lowerStr (s : String) : String := String.mk (s.data.map Char.toLower)

/-- The bitrate computed by VideoProcessor._create_video_writer (src/main.py
lines 372-381): for an .mp4 output it is half the source bitrate floored at
500000, or 1000000 when the source bitrate is not positive; for any other
extension the sentinel -1 is used.  Python floor division is Int.fdiv. -/
def writerBitrate (suffix : String) (srcBitrate : Int) : Int :=
  if lowerStr suffix = ".mp4" then
    if 0 < srcBitrate then max (Int.fdiv srcBitrate 2) 500000 else 1000000
  else -1

/-- The bitrate actually applied to the writer: _create_video_writer
(src/main.py lines 390-392) calls writer.set only when the computed bitrate
is positive. -/
def appliedBitrate (suffix : String) (srcBitrate : Int) : Option Int :=
  if 0 < writerBitrate suffix srcBitrate then
    some (writerBitrate suffix srcBitrate)
  else none

/-- The python local `blurred` of _apply_mosaic (src/main.py lines 407-411):
the Gaussian blur of the region slice of the incoming frame. -/
def blurredRegion (cv : CV) (cfg : Cfg) (frame : Img) : Img :=
  cv.gaussianBlur cfg.blurKernel cfg.blurSigma
    (sliceImg frame cfg.y (cfg.y + cfg.height) cfg.x (cfg.x + cfg.width))

/-- The state of the python array `frame` right after the assignment
`frame[y:y+h, x:x+w] = blurred` (src/main.py line 412). -/
def frameAfterBlur (cv : CV) (cfg : Cfg) (frame : Img) : Img :=
  setSliceImg frame cfg.y (cfg.y + cfg.height) cfg.x (cfg.x + cfg.width)
    (blurredRegion cv cfg frame)

/-- VideoProcessor._apply_mosaic (src/main.py lines 396-419).  The local
`region` in the python source is a numpy view into `frame`, so after
`frame[y:y+h, x:x+w] = blurred` the view shows the blurred pixels; the model
reproduces this by re-slicing frameAfterBlur (the updated array) where the
source reads `region` in the pixelation pass.  The written-back data of both
assignments has exactly the slice shape in every scenario treated by the
theorems below, so no broadcasting is modelled. -/
def applyMosaic (cv : CV) (cfg : Cfg) (frame : Img) : Except String Img :=
  if cfg.x + cfg.width > (frame.w : Int) ∨ cfg.y + cfg.height > (frame.h : Int) then
    Except.error "region out of bounds"
  else
    match cvResizeLinear cv
        (sliceImg (frameAfterBlur cv cfg frame) cfg.y (cfg.y + cfg.height)
          cfg.x (cfg.x + cfg.width))
        (Int.fdiv cfg.width 4) (Int.fdiv cfg.height 4) with
    | Except.error e => Except.error e
    | Except.ok resized =>
      match cvResizeNearest cv resized cfg.width cfg.height with
      | Except.error e => Except.error e
      | Except.ok up =>
        Except.ok (setSliceImg (frameAfterBlur cv cfg frame) cfg.y
          (cfg.y + cfg.height) cfg.x (cfg.x + cfg.width) up)

/-- Contents of a file on disk: either opaque bytes identified by a tag, or
the list of frames written by the cv2 video writer. -/
inductive FileData where
  | bytes : Nat → FileData
  | video : List Img → FileData

/-- The filesystem slots one job touches: its output path, the silent video
artifact in the temp workspace, and the extracted audio artifact. -/
structure FS where
  output : Option FileData
  tempVideo : Option FileData
  tempAudio : Option FileData

/-- Environment of one job, collecting everything decided outside the python
code: whether cv2.VideoCapture opens the source, the declared frame count,
the frames the decoder yields before end of stream, the exit status of the
two ffmpeg subprocesses, the audio and mux artifact contents, and whether a
failed mux leaves a partial file at the output path. -/
structure JobEnv where
  openOk : Bool
  declared : Nat
  stream : List Img
  extractExit : Nat
  extractContent : Nat
  muxExit : Nat
  muxContent : Nat
  muxLeftover : Bool
  leftoverContent : Nat

/-- The frame loop of VideoProcessor._process_video_stream (src/main.py
lines 352-358): at most `n` (the declared frame count) iterations, each
performing one cap.read; a read past the end of the stream returns ret set
to False and breaks the loop.  The result is the list of frames written so
far, the number of reads performed, and the error raised by _apply_mosaic if
any. -/
def streamLoop (cv : CV) (cfg : Cfg) : Nat → List Img → List Img × Nat × Option String
  | 0, _ => ([], 0, none)
  | _ + 1, [] => ([], 1, none)
  | n + 1, f :: rest =>
    match applyMosaic cv cfg f with
    | Except.error e => ([], 1, some e)
    | Except.ok p =>
      match streamLoop cv cfg n rest with
      | (ps, r, err) => (p :: ps, r + 1, err)

/-- VideoProcessor._process_video_stream (src/main.py lines 344-361): fails
when the decoder cannot open the file; otherwise runs the frame loop,
leaving whatever frames were written in the temp video artifact, and an
error raised by the transform propagates after the handles are released. -/
def processVideoStream (cv : CV) (cfg : Cfg) (env : JobEnv) (fs : FS) :
    Except String Unit × FS :=
  if env.openOk then
    match streamLoop cv cfg env.declared env.stream with
    | (written, _, some e) =>
      (Except.error e, { fs with tempVideo := some (FileData.video written) })
    | (written, _, none) =>
      (Except.ok (), { fs with tempVideo := some (FileData.video written) })
  else (Except.error "cannot open video file", fs)

/-- VideoProcessor._prepare_output (src/main.py lines 336-342): when a file
already exists at the output path it is deleted if overwrite is enabled,
otherwise FileExistsError is raised. -/
def prepareOutput (overwrite : Bool) (fs : FS) : Except String FS :=
  match fs.output with
  | some _ =>
    if overwrite then Except.ok { fs with output := none }
    else Except.error "output already exists"
  | none => Except.ok fs

/-- VideoProcessor._handle_audio (src/main.py lines 446-479).  With
remove_audio the silent artifact is moved to the output path and no tool
runs.  Otherwise the two ffmpeg subprocesses run with check set, inside a
try whose bare except clause only logs the raised CalledProcessError, so a
non-zero exit status never escapes this function; the finally clause removes
the extracted audio artifact unconditionally.  A failed mux may leave a
partial file at the output path. -/
def handleAudio (cfg : Cfg) (env : JobEnv) (fs : FS) : FS :=
  if cfg.removeAudio then
    { fs with output := fs.tempVideo, tempVideo := none }
  else
    let fs1 :=
      if env.extractExit = 0 then
        let fs2 := { fs with tempAudio := some (FileData.bytes env.extractContent) }
        if env.muxExit = 0 then
          { fs2 with output := some (FileData.bytes env.muxContent) }
        else if env.muxLeftover then
          { fs2 with output := some (FileData.bytes env.leftoverContent) }
        else fs2
      else fs
    { fs1 with tempAudio := none }

/-- The shutil.rmtree of the temp workspace performed in the finally clause
of _process_single (src/main.py line 334). -/
def purgeTemp (fs : FS) : FS := { fs with tempVideo := none, tempAudio := none }

/-- VideoProcessor._cleanup_failed (src/main.py lines 481-487): unlinks the
file at the output path if one exists. -/
def cleanupFailed (fs : FS) : FS := { fs with output := none }

/-- VideoProcessor._process_single (src/main.py lines 319-334): prepare the
output slot, decode and transform into the temp workspace, reattach audio;
an exception from the video stage triggers _cleanup_failed, and the temp
workspace is purged in the finally clause on both paths.  A raise from
_prepare_output happens before the try block, so neither cleanup runs for
it and the filesystem is left untouched. -/
def processSingle (cv : CV) (cfg : Cfg) (env : JobEnv) (fs : FS) :
    Except String Unit × FS :=
  match prepareOutput cfg.overwrite fs with
  | Except.error e => (Except.error e, fs)
  | Except.ok fs1 =>
    match processVideoStream cv cfg env fs1 with
    | (Except.error e, fs2) => (Except.error e, purgeTemp (cleanupFailed fs2))
    | (Except.ok _, fs2) => (Except.ok (), purgeTemp (handleAudio cfg env fs2))

/-- Whether a job result counts as a success in the batch summary. -/
def isOkE {α : Type} (e : Except String α) : Bool :=
  match e with
  | Except.ok _ => true
  | Except.error _ => false

/-- The terminal state of VideoProcessor.process_all: early return because
the input directory is missing, early return because no candidate file
matched, or the final succeeded/total summary. -/
inductive RunOutcome where
  | noInputDir : RunOutcome
  | noFiles : RunOutcome
  | summary : Nat → Nat → RunOutcome

/-- VideoProcessor.process_all (src/main.py lines 282-307): a missing input
directory is logged and the method returns normally; an empty candidate list
likewise; otherwise each job runs inside a try whose except clause logs and
continues with the next file, and the successes are counted. -/
def processAll (cv : CV) (cfg : Cfg) (inputDirExists : Bool)
    (jobs : List (JobEnv × FS)) :
    RunOutcome × List (Except String Unit × FS) :=
  if inputDirExists then
    if jobs.isEmpty then (RunOutcome.noFiles, [])
    else
      let results := jobs.map (fun j => processSingle cv cfg j.1 j.2)
      (RunOutcome.summary (results.countP (fun r => isOkE r.1)) jobs.length,
        results)
  else (RunOutcome.noInputDir, [])

/-- The startup and run sequence of main (src/main.py lines 491-511).
Constructing FFmpegManager first builds a ConfigManager, whose load
validates the blur kernel and exits the process with status 1 on a
ValueError; after that, missing ffmpeg binaries raise FileNotFoundError,
which main turns into exit status 1; otherwise process_all runs to
completion and main finishes with exit status 0 whatever the batch outcome
was.  The second component is the outcome of process_all, or none when the
run aborted before reaching it. -/
def runMain (cv : CV) (binariesOk : Bool) (kernel : Int) (cfg : Cfg)
    (inputDirExists : Bool) (jobs : List (JobEnv × FS)) :
    Nat × Option (RunOutcome × List (Except String Unit × FS)) :=
  match validateBlurKernel kernel with
  | Except.error _ => (1, none)
  | Except.ok _ =>
    if binariesOk then (0, some (processAll cv cfg inputDirExists jobs))
    else (1, none)

/-- Projects the success value of an Except, with a junk default image. -/
def getOk (e : Except String Img) : Img :=
  match e with
  | Except.ok v => v
  | Except.error _ => Img.mk 0 0 (fun _ _ => 0)

/-- An 8 by 8 test frame. -/
def img8 : Img := Img.mk 8 8 (fun i j => i + j)

/-- A 100 by 100 test frame. -/
def img100 : Img := Img.mk 100 100 (fun _ _ => 3)

/-- A filesystem state with no pre-existing files. -/
def fs0 : FS := FS.mk none none none

/-- Test configuration: 4 by 4 region at the origin, audio preserved,
overwrite disabled. -/
def cfgA : Cfg := Cfg.mk 0 0 4 4 55 0 false false

/-- Test configuration equal to cfgA but with overwrite enabled. -/
def cfgOvw : Cfg := Cfg.mk 0 0 4 4 55 0 true false

/-- Test configuration with a negative region x coordinate. -/
def cfgNeg : Cfg := Cfg.mk (-10) 0 5 5 55 0 false false

/-- Test configuration whose region overflows an 8 by 8 frame. -/
def cfgOOB : Cfg := Cfg.mk 0 0 10 10 55 0 false false

/-- Test configuration with a region narrower than 4 pixels. -/
def cfgSmall : Cfg := Cfg.mk 0 0 3 3 55 0 false false

/-- A job whose external steps all succeed, decoding one 100 by 100 frame. -/
def envGood : JobEnv := JobEnv.mk true 1 [img100] 0 5 0 7 false 99

/-- A job whose mux ffmpeg call exits with status 1 and leaves a partial
file at the output path; everything else succeeds. -/
def envMuxFail : JobEnv := JobEnv.mk true 1 [img8] 0 5 1 7 true 99

/-- A job whose audio extraction ffmpeg call exits with status 1;
everything else succeeds. -/
def envExtractFail : JobEnv := JobEnv.mk true 1 [img8] 1 5 0 7 false 99

/-- A job decoding one 8 by 8 frame with all external steps succeeding. -/
def envSmall : JobEnv := JobEnv.mk true 1 [img8] 0 5 0 7 false 99

theorem normIdx_of_mem (n : Nat) (i : Int) (h0 : 0 ≤ i) (h1 : i ≤ (n : Int)) :
    normIdx n i = i.toNat := by
  unfold normIdx
  rw [if_neg (by omega)]
  exact min_eq_left (by omega)

theorem sliceImg_h (f : Img) (y0 y1 x0 x1 : Int) :
    (sliceImg f y0 y1 x0 x1).h = normIdx f.h y1 - normIdx f.h y0 := rfl

theorem sliceImg_w (f : Img) (y0 y1 x0 x1 : Int) :
    (sliceImg f y0 y1 x0 x1).w = normIdx f.w x1 - normIdx f.w x0 := rfl

theorem sliceImg_px (f : Img) (y0 y1 x0 x1 : Int) (i j : Nat) :
    (sliceImg f y0 y1 x0 x1).px i j =
      f.px (normIdx f.h y0 + i) (normIdx f.w x0 + j) := rfl

theorem setSliceImg_h (f g : Img) (y0 y1 x0 x1 : Int) :
    (setSliceImg f y0 y1 x0 x1 g).h = f.h := rfl

theorem setSliceImg_w (f g : Img) (y0 y1 x0 x1 : Int) :
    (setSliceImg f y0 y1 x0 x1 g).w = f.w := rfl

theorem setSliceImg_px_in (f g : Img) (y0 y1 x0 x1 : Int) (i j : Nat)
    (hcond : normIdx f.h y0 ≤ i ∧ i < normIdx f.h y1 ∧
      normIdx f.w x0 ≤ j ∧ j < normIdx f.w x1) :
    (setSliceImg f y0 y1 x0 x1 g).px i j =
      g.px (i - normIdx f.h y0) (j - normIdx f.w x0) := by
  simp only [setSliceImg]
  rw [if_pos hcond]

theorem setSliceImg_px_out (f g : Img) (y0 y1 x0 x1 : Int) (i j : Nat)
    (hcond : ¬(normIdx f.h y0 ≤ i ∧ i < normIdx f.h y1 ∧
      normIdx f.w x0 ≤ j ∧ j < normIdx f.w x1)) :
    (setSliceImg f y0 y1 x0 x1 g).px i j = f.px i j := by
  simp only [setSliceImg]
  rw [if_neg hcond]

theorem cvResizeLinear_ok (cv : CV) (src : Img) (dw dh : Int) (out : Img)
    (hres : cvResizeLinear cv src dw dh = Except.ok out) :
    out = cv.resizeLinear src dw.toNat dh.toNat := by
  unfold cvResizeLinear at hres
  by_cases h1 : src.h = 0 ∨ src.w = 0
  · rw [if_pos h1] at hres
    exact absurd hres (by simp)
  · rw [if_neg h1] at hres
    by_cases h2 : dw ≤ 0 ∨ dh ≤ 0
    · rw [if_pos h2] at hres
      exact absurd hres (by simp)
    · rw [if_neg h2] at hres
      exact (Except.ok.inj hres).symm

theorem cvResizeNearest_ok (cv : CV) (src : Img) (dw dh : Int) (out : Img)
    (hres : cvResizeNearest cv src dw dh = Except.ok out) :
    out = cv.resizeNearest src dw.toNat dh.toNat := by
  unfold cvResizeNearest at hres
  by_cases h1 : src.h = 0 ∨ src.w = 0
  · rw [if_pos h1] at hres
    exact absurd hres (by simp)
  · rw [if_neg h1] at hres
    by_cases h2 : dw ≤ 0 ∨ dh ≤ 0
    · rw [if_pos h2] at hres
      exact absurd hres (by simp)
    · rw [if_neg h2] at hres
      exact (Except.ok.inj hres).symm

theorem view_after_write (f g : Img) (y0 y1 x0 x1 : Int) (i j : Nat)
    (hi : i < (sliceImg (setSliceImg f y0 y1 x0 x1 g) y0 y1 x0 x1).h)
    (hj : j < (sliceImg (setSliceImg f y0 y1 x0 x1 g) y0 y1 x0 x1).w) :
    (sliceImg (setSliceImg f y0 y1 x0 x1 g) y0 y1 x0 x1).px i j = g.px i j := by
  rw [sliceImg_h, setSliceImg_h] at hi
  rw [sliceImg_w, setSliceImg_w] at hj
  rw [sliceImg_px]
  rw [setSliceImg_h, setSliceImg_w] at *
  rw [setSliceImg_px_in f g y0 y1 x0 x1 _ _ (by omega)]
  congr 1 <;> omega

/-- C1: evaluation of the code at the failing inputs.  With audio preserved,
a non-zero exit status of the mux ffmpeg call leaves the job reported as a
success with a partial file at the output path, and a non-zero exit status
of the extraction ffmpeg call leaves the job reported as a success as well;
process_all counts both jobs as succeeded.  The CalledProcessError raised by
check=True is caught and only logged by the bare except clause in
_handle_audio, so it never reaches the failure accounting of process_all nor
_cleanup_failed. -/
theorem audio_tool_failure_swallowed :
    processSingle idCV cfgA envMuxFail fs0 =
      (Except.ok (), FS.mk (some (FileData.bytes 99)) none none) ∧
    processSingle idCV cfgA envExtractFail fs0 =
      (Except.ok (), FS.mk none none none) ∧
    (processAll idCV cfgA true [(envMuxFail, fs0), (envExtractFail, fs0)]).1 =
      RunOutcome.summary 2 2 :=
  ⟨rfl, rfl, rfl⟩

/-- C2 counterexample: with a valid configuration and a missing input
directory, the run reports the missing directory and processes nothing, but
the process exits with status 0, not a non-zero status as claimed. -/
theorem missing_input_dir_exit_is_zero :
    runMain idCV true 55 cfgA false [(envMuxFail, fs0)] =
      (0, some (RunOutcome.noInputDir, [])) := rfl

/-- C2 amended: if the input directory does not exist, the run reports a
directory-not-found condition and stops without processing anything, and
the process terminates normally with exit code 0. -/
theorem missing_input_dir_stops_run (cv : CV) (cfg : Cfg) (k : Int)
    (jobs : List (JobEnv × FS)) (hk : validateBlurKernel k = Except.ok k) :
    runMain cv true k cfg false jobs = (0, some (RunOutcome.noInputDir, [])) := by
  simp [runMain, hk, processAll]

theorem missing_input_dir_stops_run_witness :
    validateBlurKernel 55 = Except.ok 55 ∧
    runMain idCV true 55 cfgA false [] = (0, some (RunOutcome.noInputDir, [])) :=
  ⟨rfl, missing_input_dir_stops_run idCV cfgA 55 [] rfl⟩

/-- C5: for a job whose output path already holds a file, with overwrite
disabled the job fails immediately with the output-already-exists error, the
whole filesystem state (in particular the pre-existing output file) is
returned unchanged, and the result does not depend on the job environment,
since _prepare_output raises before any decode; with overwrite enabled,
_prepare_output deletes the pre-existing file and the job then proceeds
exactly as it would on a fresh output slot. -/
theorem overwrite_policy (cv : CV) (env : JobEnv) (d : FileData)
    (tv ta : Option FileData) :
    (∀ cfg : Cfg, cfg.overwrite = false →
      processSingle cv cfg env (FS.mk (some d) tv ta) =
        (Except.error "output already exists", FS.mk (some d) tv ta)) ∧
    (∀ cfg : Cfg, cfg.overwrite = true →
      prepareOutput cfg.overwrite (FS.mk (some d) tv ta) =
        Except.ok (FS.mk none tv ta) ∧
      processSingle cv cfg env (FS.mk (some d) tv ta) =
        processSingle cv cfg env (FS.mk none tv ta)) := by
  constructor
  · intro cfg ho
    simp [processSingle, prepareOutput, ho]
  · intro cfg ho
    constructor
    · simp [prepareOutput, ho]
    · simp [processSingle, prepareOutput, ho]

theorem overwrite_policy_witness :
    processSingle idCV cfgA envGood (FS.mk (some (FileData.bytes 42)) none none) =
      (Except.error "output already exists",
        FS.mk (some (FileData.bytes 42)) none none) ∧
    prepareOutput true (FS.mk (some (FileData.bytes 42)) none none) =
      Except.ok (FS.mk none none none) ∧
    processSingle idCV cfgOvw envGood (FS.mk (some (FileData.bytes 42)) none none) =
      processSingle idCV cfgOvw envGood (FS.mk none none none) :=
  ⟨(overwrite_policy idCV envGood (FileData.bytes 42) none none).1 cfgA rfl,
    ((overwrite_policy idCV envGood (FileData.bytes 42) none none).2 cfgOvw rfl).1,
    ((overwrite_policy idCV envGood (FileData.bytes 42) none none).2 cfgOvw rfl).2⟩

/-- C7: when the writer is created for an .mp4 output, a positive source
bitrate b yields an applied target bitrate of max of b floor-divided by 2
and 500000, a zero source bitrate yields 1000000, and for a non-.mp4 output
no bitrate is applied to the writer at all. -/
theorem mp4_bitrate_rule (suffix : String) (b : Int) :
    (lowerStr suffix = ".mp4" →
      (0 < b → appliedBitrate suffix b = some (max (Int.fdiv b 2) 500000)) ∧
      (b = 0 → appliedBitrate suffix b = some 1000000)) ∧
    (lowerStr suffix ≠ ".mp4" → appliedBitrate suffix b = none) := by
  constructor
  · intro hmp4
    constructor
    · intro hb
      have hpos : (0 : Int) < max (Int.fdiv b 2) 500000 :=
        lt_of_lt_of_le (by norm_num) (le_max_right _ _)
      simp [appliedBitrate, writerBitrate, hmp4, hb, hpos]
    · intro hb
      subst hb
      simp [appliedBitrate, writerBitrate, hmp4]
  · intro hne
    simp [appliedBitrate, writerBitrate, hne]

theorem mp4_bitrate_rule_witness :
    appliedBitrate ".mp4" 3000000 = some (max (Int.fdiv 3000000 2) 500000) ∧
    appliedBitrate ".mp4" 0 = some 1000000 ∧
    appliedBitrate ".avi" 3000000 = none :=
  ⟨((mp4_bitrate_rule ".mp4" 3000000).1 (by decide)).1 (by decide),
    ((mp4_bitrate_rule ".mp4" 0).1 (by decide)).2 rfl,
    (mp4_bitrate_rule ".avi" 3000000).2 (by decide)⟩

/-- C8: a blur_kernel that parses to an even or non-positive integer makes
ConfigManager validation raise, which exits the process with status 1
before process_all can run, so no video file is ever opened; this holds
whatever the state of the ffmpeg binaries, the input directory and the
candidate files. -/
theorem invalid_kernel_is_fatal (cv : CV) (binariesOk : Bool) (cfg : Cfg)
    (inputDirExists : Bool) (jobs : List (JobEnv × FS)) (k : Int)
    (hk : k ≤ 0 ∨ k % 2 = 0) :
    runMain cv binariesOk k cfg inputDirExists jobs = (1, none) := by
  unfold runMain validateBlurKernel
  rw [if_pos hk]

theorem invalid_kernel_is_fatal_witness :
    ((4 : Int) ≤ 0 ∨ (4 : Int) % 2 = 0) ∧
    runMain idCV true 4 cfgA true [(envGood, fs0)] = (1, none) :=
  ⟨by decide, invalid_kernel_is_fatal idCV true cfgA true [(envGood, fs0)] 4 (by decide)⟩

/-- C3 counterexample: with region x equal to -10 the documented invariant
0 ≤ x is violated, yet the bounds check of _apply_mosaic passes (numpy
interprets the negative index from the right edge), the whole job succeeds
and a file exists at the output path afterwards. -/
theorem negative_region_not_detected :
    cfgNeg.x < 0 ∧
    processSingle idCV cfgNeg envGood fs0 =
      (Except.ok (), FS.mk (some (FileData.bytes 7)) none none) :=
  ⟨by decide, rfl⟩

/-- C3 amended: the bounds check of _apply_mosaic tests only x + width
against the frame width and y + height against the frame height; when the
first decoded frame fails that test, the job fails with the
region-out-of-bounds error before any output frame is written, and no file
exists at the output path afterwards.  A negative x or y alone does not
trigger the check. -/
theorem oob_first_frame_fails_job (cv : CV) (cfg : Cfg) (env : JobEnv)
    (f : Img) (rest : List Img) (tv ta : Option FileData) (m : Nat)
    (hopen : env.openOk = true) (hs : env.stream = f :: rest)
    (hdecl : env.declared = m + 1)
    (hviol : cfg.x + cfg.width > (f.w : Int) ∨ cfg.y + cfg.height > (f.h : Int)) :
    processSingle cv cfg env (FS.mk none tv ta) =
      (Except.error "region out of bounds", FS.mk none none none) ∧
    (streamLoop cv cfg env.declared env.stream).1 = [] := by
  have hmos : applyMosaic cv cfg f = Except.error "region out of bounds" := by
    unfold applyMosaic
    rw [if_pos hviol]
  have hloop : streamLoop cv cfg env.declared env.stream =
      ([], 1, some "region out of bounds") := by
    rw [hdecl, hs]
    simp [streamLoop, hmos]
  refine ⟨?_, by rw [hloop]⟩
  simp [processSingle, prepareOutput, processVideoStream, hopen, hloop,
    purgeTemp, cleanupFailed]

theorem oob_first_frame_fails_job_witness :
    envSmall.openOk = true ∧ envSmall.stream = [img8] ∧
    envSmall.declared = 0 + 1 ∧
    (cfgOOB.x + cfgOOB.width > (img8.w : Int) ∨
      cfgOOB.y + cfgOOB.height > (img8.h : Int)) ∧
    processSingle idCV cfgOOB envSmall fs0 =
      (Except.error "region out of bounds", FS.mk none none none) :=
  ⟨rfl, rfl, rfl, by decide,
    (oob_first_frame_fails_job idCV cfgOOB envSmall img8 [] none none 0
      rfl rfl rfl (by decide)).1⟩

theorem streamLoop_reads_le (cv : CV) (cfg : Cfg) (m : Nat) (t : List Img) :
    (streamLoop cv cfg m t).2.1 ≤ m := by
  induction m generalizing t with
  | zero => simp [streamLoop]
  | succ k ih =>
    cases t with
    | nil => simp [streamLoop]
    | cons f rest =>
      simp only [streamLoop]
      cases hmos : applyMosaic cv cfg f with
      | error e => simp
      | ok p =>
        have h := ih rest
        cases hsl : streamLoop cv cfg k rest with
        | mk ps pr =>
          cases pr with
          | mk r err =>
            rw [hsl] at h
            simp at h ⊢
            omega

theorem streamLoop_truncation (cv : CV) (cfg : Cfg) :
    ∀ (s : List Img) (n : Nat), s.length < n →
    (∀ f ∈ s, isOkE (applyMosaic cv cfg f) = true) →
    (streamLoop cv cfg n s).2.2 = none ∧
    (streamLoop cv cfg n s).1 = s.map (fun f => getOk (applyMosaic cv cfg f)) := by
  intro s
  induction s with
  | nil =>
    intro n hn hok
    cases n with
    | zero => omega
    | succ k => simp [streamLoop]
  | cons f rest ih =>
    intro n hn hok
    cases n with
    | zero => omega
    | succ k =>
      have hf : isOkE (applyMosaic cv cfg f) = true := hok f (by simp)
      cases hmos : applyMosaic cv cfg f with
      | error e =>
        rw [hmos] at hf
        simp [isOkE] at hf
      | ok p =>
        have hrest : ∀ g ∈ rest, isOkE (applyMosaic cv cfg g) = true := by
          intro g hg
          exact hok g (by simp [hg])
        have hlen : rest.length < k := by
          simp at hn
          omega
        obtain ⟨h2, h3⟩ := ih k hlen hrest
        simp only [streamLoop]
        rw [hmos]
        cases hsl : streamLoop cv cfg k rest with
        | mk ps pr =>
          cases pr with
          | mk r err =>
            rw [hsl] at h2 h3
            simp at h2 h3 ⊢
            refine ⟨h2, ?_, h3⟩
            rw [hmos]
            rfl

/-- C9: the decode loop performs at most the declared number of reads; when
the stream ends before the declared count is exhausted and every decoded
frame transforms without error, the loop stops normally with no error, and
the written frames are exactly the transforms of the frames read up to the
end of the stream. -/
theorem decode_truncation_tolerant (cv : CV) (cfg : Cfg) (n : Nat)
    (s : List Img) (hn : s.length < n)
    (hok : ∀ f ∈ s, isOkE (applyMosaic cv cfg f) = true) :
    (∀ (m : Nat) (t : List Img), (streamLoop cv cfg m t).2.1 ≤ m) ∧
    (streamLoop cv cfg n s).2.2 = none ∧
    (streamLoop cv cfg n s).1 = s.map (fun f => getOk (applyMosaic cv cfg f)) :=
  ⟨fun m t => streamLoop_reads_le cv cfg m t,
    (streamLoop_truncation cv cfg s n hn hok).1,
    (streamLoop_truncation cv cfg s n hn hok).2⟩

theorem decode_truncation_tolerant_witness :
    [img8].length < 2 ∧ (streamLoop idCV cfgA 2 [img8]).2.2 = none ∧
    (streamLoop idCV cfgA 2 [img8]).1 =
      [img8].map (fun f => getOk (applyMosaic idCV cfgA f)) :=
  ⟨by decide,
    (decode_truncation_tolerant idCV cfgA 2 [img8] (by decide)
      (by intro f hf; simp only [List.mem_singleton] at hf; subst hf; rfl)).2.1,
    (decode_truncation_tolerant idCV cfgA 2 [img8] (by decide)
      (by intro f hf; simp only [List.mem_singleton] at hf; subst hf; rfl)).2.2⟩

theorem applyMosaic_ok_inv (cv : CV) (cfg : Cfg) (f out : Img)
    (hok : applyMosaic cv cfg f = Except.ok out) :
    ∃ resized up,
      cvResizeLinear cv
        (sliceImg (frameAfterBlur cv cfg f) cfg.y (cfg.y + cfg.height)
          cfg.x (cfg.x + cfg.width))
        (Int.fdiv cfg.width 4) (Int.fdiv cfg.height 4) = Except.ok resized ∧
      cvResizeNearest cv resized cfg.width cfg.height = Except.ok up ∧
      out = setSliceImg (frameAfterBlur cv cfg f) cfg.y (cfg.y + cfg.height)
        cfg.x (cfg.x + cfg.width) up := by
  unfold applyMosaic at hok
  by_cases hb : cfg.x + cfg.width > (f.w : Int) ∨ cfg.y + cfg.height > (f.h : Int)
  · rw [if_pos hb] at hok
    simp at hok
  · rw [if_neg hb] at hok
    cases hres : cvResizeLinear cv
        (sliceImg (frameAfterBlur cv cfg f) cfg.y (cfg.y + cfg.height)
          cfg.x (cfg.x + cfg.width))
        (Int.fdiv cfg.width 4) (Int.fdiv cfg.height 4) with
    | error e =>
      rw [hres] at hok
      simp at hok
    | ok resized =>
      rw [hres] at hok
      simp at hok
      cases hres2 : cvResizeNearest cv resized cfg.width cfg.height with
      | error e =>
        rw [hres2] at hok
        simp at hok
      | ok up =>
        rw [hres2] at hok
        simp at hok
        exact ⟨resized, up, rfl, hres2, hok.symm⟩

/-- C6: for a region fully inside the frame bounds, a successful transform
returns a frame with the same dimensions as the input, and every pixel whose
coordinates lie outside the region is equal to the corresponding pixel of
the input frame. -/
theorem mosaic_only_region_changes (cv : CV) (cfg : Cfg) (f out : Img)
    (hx : 0 ≤ cfg.x) (hy : 0 ≤ cfg.y) (hw : 0 ≤ cfg.width) (hht : 0 ≤ cfg.height)
    (hxw : cfg.x + cfg.width ≤ (f.w : Int)) (hyh : cfg.y + cfg.height ≤ (f.h : Int))
    (hok : applyMosaic cv cfg f = Except.ok out) :
    out.h = f.h ∧ out.w = f.w ∧
    ∀ i j : Nat,
      ¬(cfg.y ≤ (i : Int) ∧ (i : Int) < cfg.y + cfg.height ∧
        cfg.x ≤ (j : Int) ∧ (j : Int) < cfg.x + cfg.width) →
      out.px i j = f.px i j := by
  obtain ⟨resized, up, hres, hres2, hout⟩ := applyMosaic_ok_inv cv cfg f out hok
  subst hout
  refine ⟨rfl, rfl, ?_⟩
  intro i j hreg
  have hny : normIdx f.h cfg.y = cfg.y.toNat := normIdx_of_mem _ _ hy (by omega)
  have hny2 : normIdx f.h (cfg.y + cfg.height) = (cfg.y + cfg.height).toNat :=
    normIdx_of_mem _ _ (by omega) hyh
  have hnx : normIdx f.w cfg.x = cfg.x.toNat := normIdx_of_mem _ _ hx (by omega)
  have hnx2 : normIdx f.w (cfg.x + cfg.width) = (cfg.x + cfg.width).toNat :=
    normIdx_of_mem _ _ (by omega) hxw
  have hcond : ¬(normIdx f.h cfg.y ≤ i ∧ i < normIdx f.h (cfg.y + cfg.height) ∧
      normIdx f.w cfg.x ≤ j ∧ j < normIdx f.w (cfg.x + cfg.width)) := by
    rw [hny, hny2, hnx, hnx2]
    omega
  rw [setSliceImg_px_out (frameAfterBlur cv cfg f) up _ _ _ _ i j hcond]
  simp only [frameAfterBlur]
  exact setSliceImg_px_out f (blurredRegion cv cfg f) _ _ _ _ i j hcond

theorem mosaic_only_region_changes_witness :
    applyMosaic idCV cfgA img8 = Except.ok (getOk (applyMosaic idCV cfgA img8)) ∧
    ¬(cfgA.y ≤ ((7 : Nat) : Int) ∧ ((7 : Nat) : Int) < cfgA.y + cfgA.height ∧
      cfgA.x ≤ ((7 : Nat) : Int) ∧ ((7 : Nat) : Int) < cfgA.x + cfgA.width) ∧
    (getOk (applyMosaic idCV cfgA img8)).h = img8.h ∧
    (getOk (applyMosaic idCV cfgA img8)).px 7 7 = img8.px 7 7 :=
  ⟨rfl, by decide,
    (mosaic_only_region_changes idCV cfgA img8 (getOk (applyMosaic idCV cfgA img8))
      (by decide) (by decide) (by decide) (by decide) (by decide) (by decide) rfl).1,
    (mosaic_only_region_changes idCV cfgA img8 (getOk (applyMosaic idCV cfgA img8))
      (by decide) (by decide) (by decide) (by decide) (by decide) (by decide)
      rfl).2.2 7 7 (by decide)⟩

/-- C4: inside the region, a successful transform writes the nearest-neighbor
up-sample of the quarter-size linear down-sample of the blurred region: the
pixelation pass consumes the region through the numpy view after the blurred
data was written back, not the original region pixels, and its result is
what the returned frame holds over the region. -/
theorem pixelation_uses_blurred_region (cv : CV) (cfg : Cfg) (f out : Img)
    (hx : 0 ≤ cfg.x) (hy : 0 ≤ cfg.y) (hw : 0 ≤ cfg.width) (hht : 0 ≤ cfg.height)
    (hxw : cfg.x + cfg.width ≤ (f.w : Int)) (hyh : cfg.y + cfg.height ≤ (f.h : Int))
    (hok : applyMosaic cv cfg f = Except.ok out) (i j : Nat)
    (hi : i < cfg.height.toNat) (hj : j < cfg.width.toNat) :
    out.px (cfg.y.toNat + i) (cfg.x.toNat + j) =
      (cv.resizeNearest
        (cv.resizeLinear (blurredRegion cv cfg f)
          (Int.fdiv cfg.width 4).toNat (Int.fdiv cfg.height 4).toNat)
        cfg.width.toNat cfg.height.toNat).px i j := by
  obtain ⟨resized, up, hres, hres2, hout⟩ := applyMosaic_ok_inv cv cfg f out hok
  subst hout
  have hny : normIdx f.h cfg.y = cfg.y.toNat := normIdx_of_mem _ _ hy (by omega)
  have hny2 : normIdx f.h (cfg.y + cfg.height) = (cfg.y + cfg.height).toNat :=
    normIdx_of_mem _ _ (by omega) hyh
  have hnx : normIdx f.w cfg.x = cfg.x.toNat := normIdx_of_mem _ _ hx (by omega)
  have hnx2 : normIdx f.w (cfg.x + cfg.width) = (cfg.x + cfg.width).toNat :=
    normIdx_of_mem _ _ (by omega) hxw
  have hcond : normIdx f.h cfg.y ≤ cfg.y.toNat + i ∧
      cfg.y.toNat + i < normIdx f.h (cfg.y + cfg.height) ∧
      normIdx f.w cfg.x ≤ cfg.x.toNat + j ∧
      cfg.x.toNat + j < normIdx f.w (cfg.x + cfg.width) := by
    rw [hny, hny2, hnx, hnx2]
    omega
  rw [setSliceImg_px_in (frameAfterBlur cv cfg f) up _ _ _ _ _ _ hcond]
  have hup : up = cv.resizeNearest resized cfg.width.toNat cfg.height.toNat :=
    cvResizeNearest_ok cv resized cfg.width cfg.height up hres2
  have hresized : resized =
      cv.resizeLinear
        (sliceImg (frameAfterBlur cv cfg f) cfg.y (cfg.y + cfg.height)
          cfg.x (cfg.x + cfg.width))
        (Int.fdiv cfg.width 4).toNat (Int.fdiv cfg.height 4).toNat :=
    cvResizeLinear_ok cv _ _ _ resized hres
  have hview :
      cv.resizeLinear
        (sliceImg (frameAfterBlur cv cfg f) cfg.y (cfg.y + cfg.height)
          cfg.x (cfg.x + cfg.width))
        (Int.fdiv cfg.width 4).toNat (Int.fdiv cfg.height 4).toNat =
      cv.resizeLinear (blurredRegion cv cfg f)
        (Int.fdiv cfg.width 4).toNat (Int.fdiv cfg.height 4).toNat := by
    apply cv.linear_congr
    · simp only [sliceImg_h, frameAfterBlur, setSliceImg_h, blurredRegion,
        cv.gauss_h]
    · simp only [sliceImg_w, frameAfterBlur, setSliceImg_w, blurredRegion,
        cv.gauss_w]
    · intro a b ha hb
      exact view_after_write f (blurredRegion cv cfg f) _ _ _ _ a b ha hb
  have e1 : cfg.y.toNat + i - normIdx (frameAfterBlur cv cfg f).h cfg.y = i := by
    simp only [frameAfterBlur, setSliceImg_h]
    rw [hny]
    omega
  have e2 : cfg.x.toNat + j - normIdx (frameAfterBlur cv cfg f).w cfg.x = j := by
    simp only [frameAfterBlur, setSliceImg_w]
    rw [hnx]
    omega
  rw [e1, e2, hup, hresized, hview]

theorem pixelation_uses_blurred_region_witness :
    applyMosaic idCV cfgA img8 = Except.ok (getOk (applyMosaic idCV cfgA img8)) ∧
    (getOk (applyMosaic idCV cfgA img8)).px (cfgA.y.toNat + 1) (cfgA.x.toNat + 2) =
      (idCV.resizeNearest
        (idCV.resizeLinear (blurredRegion idCV cfgA img8)
          (Int.fdiv cfgA.width 4).toNat (Int.fdiv cfgA.height 4).toNat)
        cfgA.width.toNat cfgA.height.toNat).px 1 2 :=
  ⟨rfl,
    pixelation_uses_blurred_region idCV cfgA img8 (getOk (applyMosaic idCV cfgA img8))
      (by decide) (by decide) (by decide) (by decide) (by decide) (by decide)
      rfl 1 2 (by decide) (by decide)⟩

theorem fdiv_ofNat_ofNat (m k : Nat) :
    Int.fdiv (Int.ofNat m) (Int.ofNat k) = Int.ofNat (m / k) := by
  cases m with
  | zero =>
    rw [Nat.zero_div]
    rfl
  | succ n => rfl

theorem fdiv4_cast (n : Nat) : Int.fdiv (n : Int) 4 = ((n / 4 : Nat) : Int) :=
  fdiv_ofNat_ofNat n 4

theorem fdiv4_pos_iff (w : Int) (hw : 0 ≤ w) : 0 < Int.fdiv w 4 ↔ 4 ≤ w := by
  obtain ⟨n, rfl⟩ := Int.eq_ofNat_of_zero_le hw
  rw [fdiv4_cast n]
  constructor
  · intro h
    have h0 : 0 < n / 4 := by exact_mod_cast h
    have h4 : 4 ≤ n := by
      by_contra hc
      rw [Nat.div_eq_of_lt (by omega)] at h0
      omega
    exact_mod_cast h4
  · intro h
    have h4 : 4 ≤ n := by exact_mod_cast h
    have hp : 0 < n / 4 := Nat.div_pos h4 (by norm_num)
    exact_mod_cast hp

/-- C10: for a region satisfying the documented in-bounds invariant, the
transform fails exactly when the region width or height is below 4: then the
down-sample target width div 4 or height div 4 is zero and cv2.resize
raises; with width and height at least 4 the transform succeeds.  The
effective precondition width at least 4 and height at least 4 is therefore
strictly stronger than the documented region invariant. -/
theorem small_region_breaks_transform (cv : CV) (cfg : Cfg) (f : Img)
    (hx : 0 ≤ cfg.x) (hy : 0 ≤ cfg.y) (hw : 0 ≤ cfg.width) (hht : 0 ≤ cfg.height)
    (hxw : cfg.x + cfg.width ≤ (f.w : Int)) (hyh : cfg.y + cfg.height ≤ (f.h : Int)) :
    isOkE (applyMosaic cv cfg f) = false ↔ (cfg.width < 4 ∨ cfg.height < 4) := by
  have hny : normIdx f.h cfg.y = cfg.y.toNat := normIdx_of_mem _ _ hy (by omega)
  have hny2 : normIdx f.h (cfg.y + cfg.height) = (cfg.y + cfg.height).toNat :=
    normIdx_of_mem _ _ (by omega) hyh
  have hnx : normIdx f.w cfg.x = cfg.x.toNat := normIdx_of_mem _ _ hx (by omega)
  have hnx2 : normIdx f.w (cfg.x + cfg.width) = (cfg.x + cfg.width).toNat :=
    normIdx_of_mem _ _ (by omega) hxw
  have hRVh : (sliceImg (frameAfterBlur cv cfg f) cfg.y (cfg.y + cfg.height)
      cfg.x (cfg.x + cfg.width)).h = cfg.height.toNat := by
    simp only [sliceImg_h, frameAfterBlur, setSliceImg_h]
    rw [hny, hny2]
    omega
  have hRVw : (sliceImg (frameAfterBlur cv cfg f) cfg.y (cfg.y + cfg.height)
      cfg.x (cfg.x + cfg.width)).w = cfg.width.toNat := by
    simp only [sliceImg_w, frameAfterBlur, setSliceImg_w]
    rw [hnx, hnx2]
    omega
  constructor
  · intro hfail
    by_contra hcon
    push_neg at hcon
    have hw4 : 4 ≤ cfg.width := hcon.1
    have hh4 : 4 ≤ cfg.height := hcon.2
    have hdw : 0 < Int.fdiv cfg.width 4 := (fdiv4_pos_iff cfg.width hw).2 hw4
    have hdh : 0 < Int.fdiv cfg.height 4 := (fdiv4_pos_iff cfg.height hht).2 hh4
    have h1 : cvResizeLinear cv
        (sliceImg (frameAfterBlur cv cfg f) cfg.y (cfg.y + cfg.height)
          cfg.x (cfg.x + cfg.width))
        (Int.fdiv cfg.width 4) (Int.fdiv cfg.height 4) =
        Except.ok (cv.resizeLinear
          (sliceImg (frameAfterBlur cv cfg f) cfg.y (cfg.y + cfg.height)
            cfg.x (cfg.x + cfg.width))
          (Int.fdiv cfg.width 4).toNat (Int.fdiv cfg.height 4).toNat) := by
      unfold cvResizeLinear
      rw [if_neg (by rw [hRVh, hRVw]; omega), if_neg (by omega)]
    have h2 : cvResizeNearest cv
        (cv.resizeLinear
          (sliceImg (frameAfterBlur cv cfg f) cfg.y (cfg.y + cfg.height)
            cfg.x (cfg.x + cfg.width))
          (Int.fdiv cfg.width 4).toNat (Int.fdiv cfg.height 4).toNat)
        cfg.width cfg.height =
        Except.ok (cv.resizeNearest
          (cv.resizeLinear
            (sliceImg (frameAfterBlur cv cfg f) cfg.y (cfg.y + cfg.height)
              cfg.x (cfg.x + cfg.width))
            (Int.fdiv cfg.width 4).toNat (Int.fdiv cfg.height 4).toNat)
          cfg.width.toNat cfg.height.toNat) := by
      unfold cvResizeNearest
      rw [if_neg (by rw [cv.linear_h, cv.linear_w]; omega), if_neg (by omega)]
    unfold applyMosaic at hfail
    rw [if_neg (by omega), h1] at hfail
    simp at hfail
    rw [h2] at hfail
    simp [isOkE] at hfail
  · intro hsmall
    have hdw : Int.fdiv cfg.width 4 ≤ 0 ∨ Int.fdiv cfg.height 4 ≤ 0 := by
      cases hsmall with
      | inl h =>
        left
        have : ¬0 < Int.fdiv cfg.width 4 := by
          rw [fdiv4_pos_iff cfg.width hw]
          omega
        omega
      | inr h =>
        right
        have : ¬0 < Int.fdiv cfg.height 4 := by
          rw [fdiv4_pos_iff cfg.height hht]
          omega
        omega
    have herr : ∃ e, cvResizeLinear cv
        (sliceImg (frameAfterBlur cv cfg f) cfg.y (cfg.y + cfg.height)
          cfg.x (cfg.x + cfg.width))
        (Int.fdiv cfg.width 4) (Int.fdiv cfg.height 4) = Except.error e := by
      unfold cvResizeLinear
      by_cases hsrc : (sliceImg (frameAfterBlur cv cfg f) cfg.y
          (cfg.y + cfg.height) cfg.x (cfg.x + cfg.width)).h = 0 ∨
          (sliceImg (frameAfterBlur cv cfg f) cfg.y (cfg.y + cfg.height)
            cfg.x (cfg.x + cfg.width)).w = 0
      · exact ⟨_, if_pos hsrc⟩
      · rw [if_neg hsrc]
        exact ⟨_, if_pos hdw⟩
    obtain ⟨e, he⟩ := herr
    unfold applyMosaic
    rw [if_neg (by omega), he]
    simp [isOkE]

theorem small_region_breaks_transform_witness :
    (0 : Int) ≤ cfgSmall.x ∧ cfgSmall.x + cfgSmall.width ≤ (img8.w : Int) ∧
    (isOkE (applyMosaic idCV cfgSmall img8) = false ↔
      (cfgSmall.width < 4 ∨ cfgSmall.height < 4)) :=
  ⟨by decide, by decide,
    small_region_breaks_transform idCV cfgSmall img8 (by decide) (by decide)
      (by decide) (by decide) (by decide) (by decide)⟩

end VideoMosaic
